import Mathlib

/-!
Shallow embedding of the KineticLab particle-confinement simulator
(`src/components/Canvas.tsx`, data model in `src/unnamed/part_000`).
Machine floats are modelled by real numbers; `Math.sqrt` by `Real.sqrt`,
`Math.pow` by `Real.rpow` (they agree on the positive bases that arise here),
`Math.cos`/`Math.sin` by `Real.cos`/`Real.sin`.  JavaScript division, whose
result can be `NaN`/`Infinity` when the divisor is zero, is modelled by
`jsDiv` at the one place the code can divide by zero (telemetry emission).
-/

namespace KineticLab

noncomputable section

/-- 2D vector, `Vector2` of `src/unnamed/part_000`. -/
@[ext]
structure Vec2 where
  x : ℝ
  y : ℝ

/-- Modelled from the spec: `add` of the vector math library (`utils/math`,
absent from `src/`) — componentwise vector addition. -/
def add (a b : Vec2) : Vec2 := ⟨a.x + b.x, a.y + b.y⟩

/-- Modelled from the spec: `sub` of the vector math library — componentwise
vector subtraction. -/
def sub (a b : Vec2) : Vec2 := ⟨a.x - b.x, a.y - b.y⟩

/-- Modelled from the spec: `mult` of the vector math library — scalar
multiplication, vector first as at the call sites in `Canvas.tsx`. -/
def mult (v : Vec2) (s : ℝ) : Vec2 := ⟨v.x * s, v.y * s⟩

/-- Modelled from the spec: `dot` of the vector math library — dot product. -/
def dot (a b : Vec2) : ℝ := a.x * b.x + a.y * b.y

/-- Modelled from the spec: `mag` of the vector math library — Euclidean
magnitude. -/
def mag (v : Vec2) : ℝ := Real.sqrt (v.x ^ 2 + v.y ^ 2)

/-- Modelled from the spec: `normalize` of the vector math library — the
vector scaled to unit length.  For the zero vector JavaScript would produce
`NaN` components; Lean's `0 / 0 = 0` maps it to the zero vector, which is
benign because every guarded use (`sepVel < 0`, spec §4.2 non-center spawn)
excludes that case. -/
def normalize (v : Vec2) : Vec2 := ⟨v.x / mag v, v.y / mag v⟩

/-- Particle state, `Ball` of `src/unnamed/part_000`. -/
structure Ball where
  id : String
  pos : Vec2
  vel : Vec2
  acc : Vec2
  radius : ℝ
  color : String
  trail : List Vec2

/-- Placeholder element for out-of-range list reads (the JavaScript index
accesses are always in range). -/
def defaultBall : Ball := ⟨"", ⟨0, 0⟩, ⟨0, 0⟩, ⟨0, 0⟩, 0, "", []⟩

/-- Container shape kind, `SimulationConfig.shapeType` of
`src/unnamed/part_000`. -/
inductive ShapeType where
  | triangle | square | pentagon | hexagon | octagon | star

/-- Per-simulation configuration, `SimulationConfig` of
`src/unnamed/part_000` (descriptive strings kept). -/
structure SimulationConfig where
  id : ℕ
  name : String
  shapeType : ShapeType
  vertexCount : ℕ
  gravity : ℝ
  friction : ℝ
  restitution : ℝ
  rotationSpeed : ℝ
  ballCount : ℕ
  ballSize : ℝ
  initialSpeed : ℝ
  nuanceDescription : String

/-- Shared mutable settings, `GlobalSettings` of `src/unnamed/part_000`. -/
structure GlobalSettings where
  timeScale : ℝ
  gravityMultiplier : ℝ
  gravityAngle : ℝ
  viscosity : ℝ
  rotationMultiplier : ℝ
  bouncinessMultiplier : ℝ
  showVectors : Bool
  showTrails : Bool
  precision : ℕ
  useHeatmap : Bool
  enableAudio : Bool

/-- `TRAIL_LENGTH`, `Canvas.tsx` line 17. -/
def TRAIL_LENGTH : ℕ := 12

/-- Modelled from the spec: `generatePolygon` of `utils/math` (absent from
`src/`) — §4.1: `n` vertices at angles `rotation + 2πk/n`, distance `radius`
from `center`, in increasing-angle order. -/
def generatePolygon (n : ℕ) (radius : ℝ) (center : Vec2) (rotation : ℝ) : List Vec2 :=
  (List.range n).map fun k =>
    ⟨center.x + Real.cos (rotation + 2 * Real.pi * k / n) * radius,
     center.y + Real.sin (rotation + 2 * Real.pi * k / n) * radius⟩

/-- Modelled from the spec: `generateStar` of `utils/math` (absent from
`src/`) — §4.1: `2n` vertices alternating outer/inner radius at angles spaced
`π/n` apart, same rotation convention. -/
def generateStar (n : ℕ) (outerR innerR : ℝ) (center : Vec2) (rotation : ℝ) : List Vec2 :=
  (List.range (2 * n)).map fun j =>
    let r := if j % 2 = 0 then outerR else innerR
    ⟨center.x + Real.cos (rotation + Real.pi * j / n) * r,
     center.y + Real.sin (rotation + Real.pi * j / n) * r⟩

/-- Gravity vector from polar form, `Canvas.tsx` lines 87-89. -/
def gravityVec (cfg : SimulationConfig) (gs : GlobalSettings) : Vec2 :=
  let rad := gs.gravityAngle * Real.pi / 180
  ⟨Real.cos rad * cfg.gravity * gs.gravityMultiplier,
   Real.sin rad * cfg.gravity * gs.gravityMultiplier⟩

/-- Per-ball forces and position integration, `Canvas.tsx` lines 91-110:
gravity, exponential drag `(1-(viscosity+friction))^dt`, optional pointer
attraction, then `pos += vel*dt`. -/
def integrate (cfg : SimulationConfig) (gs : GlobalSettings) (dt : ℝ)
    (mouse : Option Vec2) (ball : Ball) : Ball :=
  let g := gravityVec cfg gs
  let vel1 : Vec2 := ⟨ball.vel.x + g.x * dt, ball.vel.y + g.y * dt⟩
  let airDrag := 1 - (gs.viscosity + cfg.friction)
  let vel2 := mult vel1 (airDrag ^ dt)
  let vel3 :=
    match mouse with
    | none => vel2
    | some m =>
      let toMouse := sub m ball.pos
      let mouseDist := mag toMouse
      if mouseDist < 120 then
        add vel2 (mult (mult (normalize toMouse) (400 / (mouseDist + 20))) dt)
      else vel2
  { ball with vel := vel3, pos := add ball.pos (mult vel3 dt) }

/-- The edge normal used by the boundary pass, `Canvas.tsx` lines 116-118:
perpendicular of the edge direction, normalized, negated when its dot product
with `p1` is positive. -/
def edgeNormalFinal (p1 p2 : Vec2) : Vec2 :=
  let edge := sub p2 p1
  let en0 := normalize ⟨-edge.y, edge.x⟩
  if dot en0 p1 > 0 then ⟨-en0.x, -en0.y⟩ else en0

/-- Collision of one ball against one container edge, `Canvas.tsx` lines
113-132 loop body; threads the collision counter. -/
def boundaryEdge (effRest : ℝ) (p1 p2 : Vec2) (bc : Ball × ℕ) : Ball × ℕ :=
  let ball := bc.1
  let edgeNormal := edgeNormalFinal p1 p2
  let relPos := sub ball.pos p1
  let dist := dot relPos edgeNormal
  if dist < ball.radius then
    let pos1 := add ball.pos (mult edgeNormal (ball.radius - dist))
    let velDotNormal := dot ball.vel edgeNormal
    if velDotNormal < 0 then
      ({ ball with pos := pos1,
                   vel := sub ball.vel (mult edgeNormal ((1 + effRest) * velDotNormal)) },
       bc.2 + 1)
    else ({ ball with pos := pos1 }, bc.2)
  else bc

/-- All container edges for one ball, `Canvas.tsx` lines 113-133: consecutive
vertex pairs, wrapping. -/
def boundaryPass (effRest : ℝ) (verts : List Vec2) (ball : Ball) : Ball × ℕ :=
  (List.range verts.length).foldl
    (fun bc i =>
      boundaryEdge effRest (verts.getD i ⟨0, 0⟩) (verts.getD ((i + 1) % verts.length) ⟨0, 0⟩) bc)
    (ball, 0)

/-- One pairwise collision resolution, `Canvas.tsx` lines 139-159 loop body;
returns the two updated balls and the number of collision events counted. -/
def resolvePair (effRest : ℝ) (a b : Ball) : Ball × Ball × ℕ :=
  let diff := sub b.pos a.pos
  let d := mag diff
  let minDist := a.radius + b.radius
  if d < minDist then
    let normal := normalize diff
    let overlap := minDist - d
    let aPos := sub a.pos (mult normal (overlap / 2))
    let bPos := add b.pos (mult normal (overlap / 2))
    let relVel := sub b.vel a.vel
    let sepVel := dot relVel normal
    if sepVel < 0 then
      let impulse := mult normal (sepVel * (1 + effRest) / 2)
      ({ a with pos := aPos, vel := add a.vel impulse },
       { b with pos := bPos, vel := sub b.vel impulse }, 1)
    else ({ a with pos := aPos }, { b with pos := bPos }, 0)
  else (a, b, 0)

/-- Pairwise collision pass, `Canvas.tsx` lines 137-161: ascending-index
double loop, single pass, in-place updates. -/
def pairPass (effRest : ℝ) (balls : List Ball) : List Ball × ℕ :=
  (List.range balls.length).foldl
    (fun acc i =>
      (List.range' (i + 1) (balls.length - (i + 1))).foldl
        (fun acc2 j =>
          let a := acc2.1.getD i defaultBall
          let b := acc2.1.getD j defaultBall
          let r := resolvePair effRest a b
          ((acc2.1.set i r.1).set j r.2.1, acc2.2 + r.2.2))
        acc)
    (balls, 0)

/-- One physics sub-step, `runPhysicsStep` of `Canvas.tsx` lines 81-162:
per-ball forces/integration/boundary collisions, then the pairwise pass;
returns the new ball list and the number of collision events counted. -/
def runPhysicsStep (cfg : SimulationConfig) (gs : GlobalSettings) (dt : ℝ)
    (verts : List Vec2) (mouse : Option Vec2) (balls : List Ball) : List Ball × ℕ :=
  let effRest := cfg.restitution * gs.bouncinessMultiplier
  let moved := balls.map fun b => boundaryPass effRest verts (integrate cfg gs dt mouse b)
  let boundaryCount := (moved.map Prod.snd).sum
  let pp := pairPass effRest (moved.map Prod.fst)
  (pp.1, boundaryCount + pp.2)

/-- JavaScript floating-point value as produced by a division: a finite
number, `NaN`, or a signed infinity. -/
inductive JsFloat where
  | nan
  | posInf
  | negInf
  | num (x : ℝ)

/-- JavaScript division: `0/0 = NaN`, `x/0 = ±Infinity` for `x ≠ 0`,
ordinary quotient otherwise. -/
def jsDiv (a b : ℝ) : JsFloat :=
  if b = 0 then
    if a = 0 then JsFloat.nan else if a > 0 then JsFloat.posInf else JsFloat.negInf
  else JsFloat.num (a / b)

/-- Mutable per-canvas simulation state: `stateRef` plus the telemetry refs
(`totalKeRef`, `statsTickRef`, `collisionCountRef`) of `Canvas.tsx` lines
45-57, with the sequence of emitted telemetry snapshots made explicit. -/
structure FrameState where
  balls : List Ball
  rotation : ℝ
  mousePos : Option Vec2
  totalKe : ℝ
  statsTick : ℕ
  collisionCount : ℕ
  emissions : List (JsFloat × ℕ)

/-- Physics portion of a frame, `Canvas.tsx` lines 188-197: when
`timeScale > 0`, run `precision` sub-steps of size `timeScale/precision`,
each advancing the rotation and regenerating the rotated container. -/
def substep (cfg : SimulationConfig) (gs : GlobalSettings) (shapeRadius subDt : ℝ)
    (s : FrameState) : FrameState :=
  let rot := s.rotation + cfg.rotationSpeed * gs.rotationMultiplier * subDt
  let verts :=
    match cfg.shapeType with
    | ShapeType.star => generateStar cfg.vertexCount shapeRadius (shapeRadius * 0.4) ⟨0, 0⟩ rot
    | _ => generatePolygon cfg.vertexCount shapeRadius ⟨0, 0⟩ rot
  let res := runPhysicsStep cfg gs subDt verts s.mousePos s.balls
  { s with rotation := rot, balls := res.1, collisionCount := s.collisionCount + res.2 }

/-- Sub-step loop of a frame, `Canvas.tsx` lines 188-197; zero sub-steps when
`timeScale` is not positive. -/
def physicsPhase (cfg : SimulationConfig) (gs : GlobalSettings) (shapeRadius : ℝ)
    (st : FrameState) : FrameState :=
  if gs.timeScale > 0 then
    (List.range gs.precision).foldl
      (fun s _ => substep cfg gs shapeRadius (gs.timeScale / (gs.precision : ℝ)) s) st
  else st

/-- Per-frame trail bookkeeping for one ball, `Canvas.tsx` lines 233-236:
append the screen position and evict the oldest entry past `TRAIL_LENGTH`
when trails are shown and time advances; clear when trails are hidden. -/
def updateTrail (showTrails : Bool) (timeScale : ℝ) (p : Vec2) (trail : List Vec2) : List Vec2 :=
  if showTrails = true ∧ timeScale > 0 then
    let t := trail ++ [p]
    if t.length > TRAIL_LENGTH then t.tail else t
  else if showTrails = false then [] else trail

/-- Trail update over all balls, `Canvas.tsx` lines 227-236 (trail part of
the per-ball render loop; `sx`/`sy` are `center + pos`). -/
def trailPhase (gs : GlobalSettings) (center : Vec2) (st : FrameState) : FrameState :=
  { st with balls := st.balls.map fun b =>
      { b with trail := updateTrail gs.showTrails gs.timeScale (add center b.pos) b.trail } }

/-- Kinetic energy observed in one frame, `Canvas.tsx` lines 226-231:
`Σ 0.5 * speed * speed` with `speed = mag vel`. -/
def frameKeOf (balls : List Ball) : ℝ :=
  (balls.map fun b => 0.5 * mag b.vel * mag b.vel).sum

/-- Telemetry aggregation of one frame, `Canvas.tsx` lines 261-266:
accumulate the frame kinetic energy, advance the observation counter, and on
the 20th observation emit `(totalKe / (20 * ballCount), collisionCount)` and
reset all accumulators. -/
def observeStats (st : FrameState) : FrameState :=
  let totalKe1 := st.totalKe + frameKeOf st.balls
  let tick1 := st.statsTick + 1
  if tick1 ≥ 20 then
    { st with totalKe := 0, statsTick := 0, collisionCount := 0,
              emissions := st.emissions ++
                [(jsDiv totalKe1 (20 * (st.balls.length : ℝ)), st.collisionCount)] }
  else { st with totalKe := totalKe1, statsTick := tick1 }

/-- One frame-driver invocation, `tick` of `Canvas.tsx` lines 173-269 with
the pure-rendering statements dropped: physics sub-steps, then the per-ball
trail update, then telemetry observation. -/
def tick (cfg : SimulationConfig) (gs : GlobalSettings) (center : Vec2) (shapeRadius : ℝ)
    (st : FrameState) : FrameState :=
  observeStats (trailPhase gs center (physicsPhase cfg gs shapeRadius st))

/-- The four `Math.random()` draws used to spawn one ball
(`Canvas.tsx` lines 62-65), each in `[0,1)`. -/
structure Rand4 where
  r1 : ℝ
  r2 : ℝ
  r3 : ℝ
  r4 : ℝ

/-- Particle initializer, `Canvas.tsx` lines 60-76, with the random draws
made explicit parameters. -/
def initBalls (cfg : SimulationConfig) (rands : ℕ → Rand4) : List Ball :=
  (List.range cfg.ballCount).map fun i =>
    let r := rands i
    let angle := r.r1 * Real.pi * 2
    let dist := r.r2 * 20
    let speed := cfg.initialSpeed * (0.8 + r.r3 * 0.4)
    let velAngle := r.r4 * Real.pi * 2
    { id := toString cfg.id ++ "-" ++ toString i
      pos := ⟨Real.cos angle * dist, Real.sin angle * dist⟩
      vel := ⟨Real.cos velAngle * speed, Real.sin velAngle * speed⟩
      acc := ⟨0, 0⟩
      radius := cfg.ballSize
      color := "#FFFFFF"
      trail := [] }

/-- (Re)initialization effect, `Canvas.tsx` lines 59-79: replace the whole
particle set and reset the container rotation to 0; runs whenever
`config.id`, `config.ballCount`, `config.initialSpeed` or `config.ballSize`
changes. -/
def resetSimulation (cfg : SimulationConfig) (rands : ℕ → Rand4) (st : FrameState) : FrameState :=
  { st with balls := initBalls cfg rands, rotation := 0 }

/-! ## Algebraic helper lemmas about the vector math -/

theorem dot_mult_left (v : Vec2) (s : ℝ) (w : Vec2) : dot (mult v s) w = s * dot v w := by
  simp only [dot, mult]; ring

theorem dot_sub_left (a b c : Vec2) : dot (sub a b) c = dot a c - dot b c := by
  simp only [dot, sub]; ring

theorem dot_add_left (a b c : Vec2) : dot (add a b) c = dot a c + dot b c := by
  simp only [dot, add]; ring

theorem dot_neg_left (a b : Vec2) : dot ⟨-a.x, -a.y⟩ b = -dot a b := by
  simp only [dot]; ring

theorem mag_zero_vec : mag ⟨0, 0⟩ = 0 := by
  simp [mag]

theorem normalize_zero_vec : normalize ⟨0, 0⟩ = ⟨0, 0⟩ := by
  simp [normalize]

theorem magSq_pos_of_ne {v : Vec2} (h : v ≠ ⟨0, 0⟩) : 0 < v.x ^ 2 + v.y ^ 2 := by
  rcases lt_or_eq_of_le (by positivity : (0 : ℝ) ≤ v.x ^ 2 + v.y ^ 2) with hlt | heq
  · exact hlt
  · exfalso
    apply h
    have hx : v.x = 0 := by nlinarith [sq_nonneg v.x, sq_nonneg v.y]
    have hy : v.y = 0 := by nlinarith [sq_nonneg v.x, sq_nonneg v.y]
    exact Vec2.ext hx hy

theorem mag_pos_of_ne {v : Vec2} (h : v ≠ ⟨0, 0⟩) : 0 < mag v :=
  Real.sqrt_pos.mpr (magSq_pos_of_ne h)

theorem mag_sq_eq (v : Vec2) : mag v ^ 2 = v.x ^ 2 + v.y ^ 2 :=
  Real.sq_sqrt (by positivity)

theorem dot_normalize_self {v : Vec2} (h : v ≠ ⟨0, 0⟩) :
    dot (normalize v) (normalize v) = 1 := by
  have hm : 0 < mag v := mag_pos_of_ne h
  have hsq : mag v ^ 2 = v.x ^ 2 + v.y ^ 2 := mag_sq_eq v
  simp only [normalize, dot]
  field_simp
  linear_combination -hsq

theorem mag_eval (x y r : ℝ) (hr : 0 ≤ r) (h : x ^ 2 + y ^ 2 = r ^ 2) :
    mag ⟨x, y⟩ = r := by
  simp only [mag, h]
  exact Real.sqrt_sq hr

theorem normalize_eval (x y r : ℝ) (hr : 0 < r) (h : x ^ 2 + y ^ 2 = r ^ 2) :
    normalize ⟨x, y⟩ = ⟨x / r, y / r⟩ := by
  simp only [normalize, mag_eval x y r hr.le h]

theorem dot_edgeNormalFinal_self (p1 p2 : Vec2) (h : sub p2 p1 ≠ ⟨0, 0⟩) :
    dot (edgeNormalFinal p1 p2) (edgeNormalFinal p1 p2) = 1 := by
  have hperp : (⟨-(sub p2 p1).y, (sub p2 p1).x⟩ : Vec2) ≠ ⟨0, 0⟩ := by
    intro hc
    apply h
    have hx : -(sub p2 p1).y = 0 := congrArg Vec2.x hc
    have hy : (sub p2 p1).x = 0 := congrArg Vec2.y hc
    exact Vec2.ext hy (neg_eq_zero.mp hx)
  have hu := dot_normalize_self hperp
  simp only [edgeNormalFinal]
  split
  · simp only [dot] at hu ⊢
    linear_combination hu
  · exact hu

theorem dot_edgeNormalFinal_p1_nonpos (p1 p2 : Vec2) :
    dot (edgeNormalFinal p1 p2) p1 ≤ 0 := by
  simp only [edgeNormalFinal]
  split
  · next hgt => rw [dot_neg_left]; linarith
  · next hle => exact le_of_not_lt hle

/-! ## Branch equations for the collision resolvers -/

theorem resolvePair_approaching (e : ℝ) (a b : Ball)
    (hd : mag (sub b.pos a.pos) < a.radius + b.radius)
    (hs : dot (sub b.vel a.vel) (normalize (sub b.pos a.pos)) < 0) :
    resolvePair e a b =
      ({ a with
          pos := sub a.pos (mult (normalize (sub b.pos a.pos))
                    ((a.radius + b.radius - mag (sub b.pos a.pos)) / 2)),
          vel := add a.vel (mult (normalize (sub b.pos a.pos))
                    (dot (sub b.vel a.vel) (normalize (sub b.pos a.pos)) * (1 + e) / 2)) },
       { b with
          pos := add b.pos (mult (normalize (sub b.pos a.pos))
                    ((a.radius + b.radius - mag (sub b.pos a.pos)) / 2)),
          vel := sub b.vel (mult (normalize (sub b.pos a.pos))
                    (dot (sub b.vel a.vel) (normalize (sub b.pos a.pos)) * (1 + e) / 2)) },
       1) := by
  simp only [resolvePair]
  rw [if_pos hd, if_pos hs]

theorem boundaryEdge_bounce (effRest : ℝ) (p1 p2 : Vec2) (ball : Ball) (c : ℕ)
    (hpen : dot (sub ball.pos p1) (edgeNormalFinal p1 p2) < ball.radius)
    (hvel : dot ball.vel (edgeNormalFinal p1 p2) < 0) :
    boundaryEdge effRest p1 p2 (ball, c) =
      ({ ball with
          pos := add ball.pos (mult (edgeNormalFinal p1 p2)
                    (ball.radius - dot (sub ball.pos p1) (edgeNormalFinal p1 p2))),
          vel := sub ball.vel (mult (edgeNormalFinal p1 p2)
                    ((1 + effRest) * dot ball.vel (edgeNormalFinal p1 p2))) },
       c + 1) := by
  simp only [boundaryEdge]
  rw [if_pos hpen, if_pos hvel]

/-! ## C5 -/

/-- C5: every pairwise collision resolution applies an equal-and-opposite
impulse, so the vector sum of the two balls' velocities is exactly unchanged
(momentum conservation for unit equal masses, any effective restitution —
in particular the elastic case `effectiveRestitution = 1`). -/
theorem pair_momentum_conserved (e : ℝ) (a b : Ball) :
    add (resolvePair e a b).1.vel (resolvePair e a b).2.1.vel = add a.vel b.vel := by
  simp only [resolvePair]
  split_ifs with h1 h2
  · apply Vec2.ext <;> simp [add, sub, mult]
  · rfl
  · rfl

/-! ## C9 -/

/-- C9: in every pairwise resolution where the separating velocity
`s = dot(b.vel - a.vel, normal)` is negative, the post-impulse separating
velocity along the same normal equals `-effectiveRestitution * s`; hence for
`effectiveRestitution ≤ 1` the relative normal speed does not increase, and
for `effectiveRestitution = 0` it becomes zero. -/
theorem pair_restitution_relation (e : ℝ) (a b : Ball)
    (hd : mag (sub b.pos a.pos) < a.radius + b.radius)
    (hs : dot (sub b.vel a.vel) (normalize (sub b.pos a.pos)) < 0) :
    dot (sub (resolvePair e a b).2.1.vel (resolvePair e a b).1.vel)
        (normalize (sub b.pos a.pos)) =
      -(e * dot (sub b.vel a.vel) (normalize (sub b.pos a.pos)))
    ∧ (e = 0 →
        dot (sub (resolvePair e a b).2.1.vel (resolvePair e a b).1.vel)
          (normalize (sub b.pos a.pos)) = 0)
    ∧ (0 ≤ e → e ≤ 1 →
        |dot (sub (resolvePair e a b).2.1.vel (resolvePair e a b).1.vel)
          (normalize (sub b.pos a.pos))| ≤
        |dot (sub b.vel a.vel) (normalize (sub b.pos a.pos))|) := by
  have hne : sub b.pos a.pos ≠ ⟨0, 0⟩ := by
    intro hc
    rw [hc, normalize_zero_vec] at hs
    simp [dot] at hs
  have hu := dot_normalize_self hne
  have hmain :
      dot (sub (resolvePair e a b).2.1.vel (resolvePair e a b).1.vel)
        (normalize (sub b.pos a.pos)) =
      -(e * dot (sub b.vel a.vel) (normalize (sub b.pos a.pos))) := by
    rw [resolvePair_approaching e a b hd hs]
    simp only [dot_sub_left, dot_add_left, dot_mult_left]
    rw [hu]
    ring
  refine ⟨hmain, fun he => by rw [hmain, he]; ring, fun h0 h1 => ?_⟩
  rw [hmain, abs_neg, abs_mul, abs_of_nonneg h0]
  calc e * |dot (sub b.vel a.vel) (normalize (sub b.pos a.pos))| ≤
      1 * |dot (sub b.vel a.vel) (normalize (sub b.pos a.pos))| :=
        mul_le_mul_of_nonneg_right h1 (abs_nonneg _)
    _ = |dot (sub b.vel a.vel) (normalize (sub b.pos a.pos))| := one_mul _

/-! ## Concrete test particles used by the witnesses -/

def ballA : Ball := ⟨"a", ⟨0, 0⟩, ⟨0, 0⟩, ⟨0, 0⟩, 5, "", []⟩

def ballB : Ball := ⟨"b", ⟨8, 0⟩, ⟨-2, 0⟩, ⟨0, 0⟩, 5, "", []⟩

def ballC : Ball := ⟨"c", ⟨7, 0⟩, ⟨2, 0⟩, ⟨0, 0⟩, 5, "", []⟩

/-- Witness for C9 at a concrete approaching pair: balls of radius 5 at
`(0,0)` and `(8,0)`, relative velocity `(-2,0)`, restitution `1/2`. -/
theorem pair_restitution_relation_witness :
    mag (sub ballB.pos ballA.pos) < ballA.radius + ballB.radius
    ∧ dot (sub ballB.vel ballA.vel) (normalize (sub ballB.pos ballA.pos)) < 0
    ∧ dot (sub (resolvePair (1 / 2) ballA ballB).2.1.vel
            (resolvePair (1 / 2) ballA ballB).1.vel)
          (normalize (sub ballB.pos ballA.pos)) =
        -((1 / 2) * dot (sub ballB.vel ballA.vel) (normalize (sub ballB.pos ballA.pos))) := by
  have h1 : sub ballB.pos ballA.pos = ⟨8, 0⟩ := by
    apply Vec2.ext <;> simp [ballA, ballB, sub]
  have hmag : mag (⟨8, 0⟩ : Vec2) = 8 := mag_eval 8 0 8 (by norm_num) (by norm_num)
  have hd : mag (sub ballB.pos ballA.pos) < ballA.radius + ballB.radius := by
    rw [h1, hmag]
    norm_num [ballA, ballB]
  have hnorm : normalize (⟨8, 0⟩ : Vec2) = ⟨1, 0⟩ := by
    rw [normalize_eval 8 0 8 (by norm_num) (by norm_num)]
    apply Vec2.ext <;> norm_num
  have hs : dot (sub ballB.vel ballA.vel) (normalize (sub ballB.pos ballA.pos)) < 0 := by
    rw [h1, hnorm]
    norm_num [ballA, ballB, sub, dot]
  exact ⟨hd, hs, (pair_restitution_relation (1 / 2) ballA ballB hd hs).1⟩

/-! ## C2 -/

/-- C2 counterexample: for the container edge from `(1,-1)` to `(1,1)` — a
square edge of a container centered at the origin, whose outward direction is
`(+1,0)` — the normal computed by the boundary pass is `(-1,0)`: its dot
product with the edge vertex `p1` is negative, so it points toward the
container center, not away from it. -/
theorem boundary_normal_outward_cex :
    edgeNormalFinal ⟨1, -1⟩ ⟨1, 1⟩ = ⟨-1, 0⟩
    ∧ dot (edgeNormalFinal ⟨1, -1⟩ ⟨1, 1⟩) ⟨1, -1⟩ < 0 := by
  have hperp : (⟨-(sub (⟨1, 1⟩ : Vec2) ⟨1, -1⟩).y, (sub (⟨1, 1⟩ : Vec2) ⟨1, -1⟩).x⟩ : Vec2)
      = ⟨-2, 0⟩ := by
    apply Vec2.ext <;> norm_num [sub]
  have hn : edgeNormalFinal ⟨1, -1⟩ ⟨1, 1⟩ = ⟨-1, 0⟩ := by
    simp only [edgeNormalFinal, hperp]
    rw [normalize_eval (-2) 0 2 (by norm_num) (by norm_num)]
    rw [if_neg (by norm_num [dot])]
    apply Vec2.ext <;> norm_num
  refine ⟨hn, ?_⟩
  rw [hn]
  norm_num [dot]

/-- C2 amended: the unit normal used by the boundary pass points inward —
its dot product with the edge vertex `p1` is `≤ 0`, i.e. it points to the
side of the edge containing the container center (origin) — and a particle
is treated as penetrating (position corrected) exactly when its signed
distance from the edge along that normal is below its radius. -/
theorem boundary_normal_inward (effRest : ℝ) (p1 p2 : Vec2) (ball : Ball) (c : ℕ) :
    dot (edgeNormalFinal p1 p2) p1 ≤ 0
    ∧ (ball.radius ≤ dot (sub ball.pos p1) (edgeNormalFinal p1 p2) →
        boundaryEdge effRest p1 p2 (ball, c) = (ball, c))
    ∧ (dot (sub ball.pos p1) (edgeNormalFinal p1 p2) < ball.radius →
        (boundaryEdge effRest p1 p2 (ball, c)).1.pos =
          add ball.pos (mult (edgeNormalFinal p1 p2)
            (ball.radius - dot (sub ball.pos p1) (edgeNormalFinal p1 p2)))) := by
  refine ⟨dot_edgeNormalFinal_p1_nonpos p1 p2, fun hge => ?_, fun hlt => ?_⟩
  · simp only [boundaryEdge]
    rw [if_neg (not_lt.mpr hge)]
  · simp only [boundaryEdge]
    rw [if_pos hlt]
    split_ifs <;> rfl

/-- Witness for C2 at a concrete edge and particle: bottom edge
`(-1,-1) → (1,-1)` of a square around the origin and the radius-5 particle
at the origin; the inward normal is `(0,1)` and the particle is pushed out
along it. -/
theorem boundary_normal_inward_witness :
    dot (edgeNormalFinal ⟨-1, -1⟩ ⟨1, -1⟩) ⟨-1, -1⟩ ≤ 0
    ∧ (boundaryEdge 1 ⟨-1, -1⟩ ⟨1, -1⟩ (ballA, 0)).1.pos =
        add ballA.pos (mult (edgeNormalFinal ⟨-1, -1⟩ ⟨1, -1⟩)
          (ballA.radius - dot (sub ballA.pos ⟨-1, -1⟩) (edgeNormalFinal ⟨-1, -1⟩ ⟨1, -1⟩))) := by
  have hperp : (⟨-(sub (⟨1, -1⟩ : Vec2) ⟨-1, -1⟩).y, (sub (⟨1, -1⟩ : Vec2) ⟨-1, -1⟩).x⟩ : Vec2)
      = ⟨0, 2⟩ := by
    apply Vec2.ext <;> norm_num [sub]
  have hn : edgeNormalFinal ⟨-1, -1⟩ ⟨1, -1⟩ = ⟨0, 1⟩ := by
    simp only [edgeNormalFinal, hperp]
    rw [normalize_eval 0 2 2 (by norm_num) (by norm_num)]
    rw [if_neg (by norm_num [dot])]
    apply Vec2.ext <;> norm_num
  have h := boundary_normal_inward 1 ⟨-1, -1⟩ ⟨1, -1⟩ ballA 0
  refine ⟨h.1, h.2.2 ?_⟩
  rw [hn]
  norm_num [ballA, sub, dot]

/-! ## C4 -/

/-- C4: a particle of radius 5 at signed distance 3 inside an edge, with
normal velocity component `-2` and effective restitution `1/2`, is pushed out
by exactly 2 units along the normal and its normal velocity component becomes
`+1`. -/
theorem boundary_scenario_radius5 (p1 p2 : Vec2) (ball : Ball) (c : ℕ)
    (he : sub p2 p1 ≠ ⟨0, 0⟩)
    (hrad : ball.radius = 5)
    (hdist : dot (sub ball.pos p1) (edgeNormalFinal p1 p2) = 3)
    (hvel : dot ball.vel (edgeNormalFinal p1 p2) = -2) :
    (boundaryEdge (1 / 2) p1 p2 (ball, c)).1.pos =
        add ball.pos (mult (edgeNormalFinal p1 p2) 2)
    ∧ dot (boundaryEdge (1 / 2) p1 p2 (ball, c)).1.vel (edgeNormalFinal p1 p2) = 1 := by
  have hu := dot_edgeNormalFinal_self p1 p2 he
  have hpen : dot (sub ball.pos p1) (edgeNormalFinal p1 p2) < ball.radius := by
    rw [hdist, hrad]; norm_num
  have hv : dot ball.vel (edgeNormalFinal p1 p2) < 0 := by
    rw [hvel]; norm_num
  rw [boundaryEdge_bounce (1 / 2) p1 p2 ball c hpen hv]
  constructor
  · rw [hdist, hrad]
    norm_num
  · simp only [dot_sub_left, dot_mult_left]
    rw [hu, hvel]
    ring

/-- Witness for C4 at a concrete edge and particle: edge `(10,-10) → (10,10)`
(inward normal `(-1,0)`), particle at `(7,0)` with velocity `(2,0)`. -/
theorem boundary_scenario_radius5_witness :
    ballC.radius = 5
    ∧ dot (sub ballC.pos ⟨10, -10⟩) (edgeNormalFinal ⟨10, -10⟩ ⟨10, 10⟩) = 3
    ∧ dot ballC.vel (edgeNormalFinal ⟨10, -10⟩ ⟨10, 10⟩) = -2
    ∧ (boundaryEdge (1 / 2) ⟨10, -10⟩ ⟨10, 10⟩ (ballC, 0)).1.pos =
        add ballC.pos (mult (edgeNormalFinal ⟨10, -10⟩ ⟨10, 10⟩) 2)
    ∧ dot (boundaryEdge (1 / 2) ⟨10, -10⟩ ⟨10, 10⟩ (ballC, 0)).1.vel
        (edgeNormalFinal ⟨10, -10⟩ ⟨10, 10⟩) = 1 := by
  have hperp : (⟨-(sub (⟨10, 10⟩ : Vec2) ⟨10, -10⟩).y, (sub (⟨10, 10⟩ : Vec2) ⟨10, -10⟩).x⟩ : Vec2)
      = ⟨-20, 0⟩ := by
    apply Vec2.ext <;> norm_num [sub]
  have hn : edgeNormalFinal ⟨10, -10⟩ ⟨10, 10⟩ = ⟨-1, 0⟩ := by
    simp only [edgeNormalFinal, hperp]
    rw [normalize_eval (-20) 0 20 (by norm_num) (by norm_num)]
    rw [if_neg (by norm_num [dot])]
    apply Vec2.ext <;> norm_num
  have he : sub (⟨10, 10⟩ : Vec2) ⟨10, -10⟩ ≠ ⟨0, 0⟩ := by
    intro hc
    have hy : (sub (⟨10, 10⟩ : Vec2) ⟨10, -10⟩).y = 0 := congrArg Vec2.y hc
    norm_num [sub] at hy
  have hdist : dot (sub ballC.pos ⟨10, -10⟩) (edgeNormalFinal ⟨10, -10⟩ ⟨10, 10⟩) = 3 := by
    rw [hn]
    norm_num [ballC, sub, dot]
  have hvel : dot ballC.vel (edgeNormalFinal ⟨10, -10⟩ ⟨10, 10⟩) = -2 := by
    rw [hn]
    norm_num [ballC, dot]
  have h := boundary_scenario_radius5 ⟨10, -10⟩ ⟨10, 10⟩ ballC 0 he rfl hdist hvel
  exact ⟨rfl, hdist, hvel, h.1, h.2⟩

/-! ## Structure-projection helper lemmas for the frame pipeline -/

theorem observeStats_balls (st : FrameState) : (observeStats st).balls = st.balls := by
  simp only [observeStats]
  split_ifs <;> rfl

theorem trailPhase_statsTick (gs : GlobalSettings) (center : Vec2) (st : FrameState) :
    (trailPhase gs center st).statsTick = st.statsTick := rfl

theorem trailPhase_totalKe (gs : GlobalSettings) (center : Vec2) (st : FrameState) :
    (trailPhase gs center st).totalKe = st.totalKe := rfl

theorem physicsPhase_frozen (cfg : SimulationConfig) (gs : GlobalSettings)
    (shapeRadius : ℝ) (st : FrameState) (h : gs.timeScale = 0) :
    physicsPhase cfg gs shapeRadius st = st := by
  unfold physicsPhase
  rw [if_neg]
  rw [h]
  exact lt_irrefl 0

/-! ## C8 -/

/-- C8: the telemetry aggregator emits exactly one snapshot on every 20th
observation — never earlier — carrying
`averageKE = runningTotal / (20 * particleCount)` (JS division, finite exactly
when the particle count is positive) and the shared collision counter, and
immediately after emission the kinetic-energy accumulator, the collision
counter and the observation counter are all reset to zero. -/
theorem telemetry_window_twenty (st : FrameState) :
    (st.statsTick + 1 < 20 →
      (observeStats st).emissions = st.emissions
      ∧ (observeStats st).statsTick = st.statsTick + 1
      ∧ (observeStats st).totalKe = st.totalKe + frameKeOf st.balls
      ∧ (observeStats st).collisionCount = st.collisionCount)
    ∧ (20 ≤ st.statsTick + 1 →
      (observeStats st).emissions =
        st.emissions ++
          [(jsDiv (st.totalKe + frameKeOf st.balls) (20 * (st.balls.length : ℝ)),
            st.collisionCount)]
      ∧ (observeStats st).totalKe = 0
      ∧ (observeStats st).collisionCount = 0
      ∧ (observeStats st).statsTick = 0)
    ∧ (0 < st.balls.length →
      jsDiv (st.totalKe + frameKeOf st.balls) (20 * (st.balls.length : ℝ)) =
        JsFloat.num ((st.totalKe + frameKeOf st.balls) / (20 * (st.balls.length : ℝ)))) := by
  refine ⟨fun hlt => ?_, fun hge => ?_, fun hpos => ?_⟩
  · simp only [observeStats]
    rw [if_neg (by omega)]
    exact ⟨rfl, rfl, rfl, rfl⟩
  · simp only [observeStats]
    rw [if_pos (by omega)]
    exact ⟨rfl, rfl, rfl, rfl⟩
  · unfold jsDiv
    rw [if_neg]
    positivity

/-- Concrete frame state used by witnesses: one particle, observation counter
at 19 (the 20th observation is due), 7 counted collisions. -/
def stW : FrameState := ⟨[ballA], 0, none, 0, 19, 7, []⟩

/-- Witness for C8: at the concrete state `stW` the 20th observation emits
one snapshot and resets the accumulators. -/
theorem telemetry_window_twenty_witness :
    20 ≤ stW.statsTick + 1
    ∧ ((observeStats stW).emissions =
        stW.emissions ++
          [(jsDiv (stW.totalKe + frameKeOf stW.balls) (20 * (stW.balls.length : ℝ)),
            stW.collisionCount)]
      ∧ (observeStats stW).totalKe = 0
      ∧ (observeStats stW).collisionCount = 0
      ∧ (observeStats stW).statsTick = 0) :=
  ⟨by norm_num [stW], (telemetry_window_twenty stW).2.1 (by norm_num [stW])⟩

/-! ## C1 -/

/-- Concrete configuration and settings used by witnesses and
counterexamples; `gsFrozen` has `timeScale = 0`. -/
def cfg0 : SimulationConfig := ⟨0, "", ShapeType.square, 4, 0, 0, 1, 0, 0, 5, 1, ""⟩

def gsFrozen : GlobalSettings := ⟨0, 1, 90, 0, 1, 1, false, true, 4, false, false⟩

def stEmpty : FrameState := ⟨[], 0, none, 0, 19, 0, []⟩

/-- C1 counterexample: a frame at which a telemetry snapshot is due
(`statsTick = 19`) with zero particles emits `NaN` (the JavaScript value of
`0 / 0`), not `0` — the division by `particleCount = 0` is not
special-cased. -/
theorem telemetry_zero_particles_cex :
    (tick cfg0 gsFrozen ⟨0, 0⟩ 100 stEmpty).emissions = [(JsFloat.nan, 0)]
    ∧ JsFloat.nan ≠ JsFloat.num 0 := by
  constructor
  · rw [tick, physicsPhase_frozen cfg0 gsFrozen 100 stEmpty rfl]
    simp [trailPhase, observeStats, frameKeOf, jsDiv, stEmpty, gsFrozen]
  · intro h
    exact JsFloat.noConfusion h

/-- C1 amended: if the particle count is zero at the moment a telemetry
snapshot is due, the kinetic-energy accumulator is 0 and the emitted
averageKE value is `NaN` (JavaScript `0 / 0`), not `0`: the division by
`particleCount = 0` is not special-cased. -/
theorem telemetry_zero_particles_nan (st : FrameState)
    (hb : st.balls = []) (h20 : 20 ≤ st.statsTick + 1) (hke : st.totalKe = 0) :
    (observeStats st).emissions =
      st.emissions ++ [(JsFloat.nan, st.collisionCount)] := by
  simp only [observeStats]
  rw [if_pos (by omega)]
  simp only [hb, frameKeOf, List.map_nil, List.sum_nil, List.length_nil, hke]
  norm_num [jsDiv]

/-- Witness for C1 at the concrete zero-particle state `stEmpty`. -/
theorem telemetry_zero_particles_nan_witness :
    stEmpty.balls = [] ∧ 20 ≤ stEmpty.statsTick + 1 ∧ stEmpty.totalKe = 0
    ∧ (observeStats stEmpty).emissions =
        stEmpty.emissions ++ [(JsFloat.nan, stEmpty.collisionCount)] :=
  ⟨rfl, by norm_num [stEmpty], rfl,
    telemetry_zero_particles_nan stEmpty rfl (by norm_num [stEmpty]) rfl⟩

/-! ## C6 -/

/-- C6: with `timeScale = 0` a frame-driver invocation performs zero physics
sub-steps — every particle's position and velocity are exactly unchanged by
any number of `tick` calls — while the telemetry observation counter still
advances each frame. -/
theorem timescale_zero_freezes (cfg : SimulationConfig) (gs : GlobalSettings)
    (center : Vec2) (shapeRadius : ℝ) (h : gs.timeScale = 0) :
    (∀ (st : FrameState) (n : ℕ),
      ((tick cfg gs center shapeRadius)^[n] st).balls.map (fun b => (b.pos, b.vel)) =
        st.balls.map (fun b => (b.pos, b.vel)))
    ∧ (∀ st : FrameState, st.statsTick + 1 < 20 →
        (tick cfg gs center shapeRadius st).statsTick = st.statsTick + 1) := by
  have hone : ∀ st : FrameState,
      (tick cfg gs center shapeRadius st).balls.map (fun b => (b.pos, b.vel)) =
        st.balls.map (fun b => (b.pos, b.vel)) := by
    intro st
    rw [tick, physicsPhase_frozen cfg gs shapeRadius st h, observeStats_balls]
    show ((st.balls.map _).map _) = _
    rw [List.map_map]
    rfl
  refine ⟨fun st n => ?_, fun st hst => ?_⟩
  · induction n generalizing st with
    | zero => rfl
    | succ m ih =>
      rw [Function.iterate_succ_apply]
      rw [ih (tick cfg gs center shapeRadius st), hone st]
  · rw [tick, physicsPhase_frozen cfg gs shapeRadius st h]
    simp only [observeStats]
    rw [if_neg (by simp only [trailPhase_statsTick]; omega)]
    simp only [trailPhase_statsTick]

/-- Witness for C6: three frozen ticks leave the single particle of `stW`
bit-identical in position and velocity. -/
theorem timescale_zero_freezes_witness :
    gsFrozen.timeScale = 0
    ∧ ((tick cfg0 gsFrozen ⟨0, 0⟩ 100)^[3] stW).balls.map (fun b => (b.pos, b.vel)) =
        stW.balls.map (fun b => (b.pos, b.vel)) :=
  ⟨rfl, (timescale_zero_freezes cfg0 gsFrozen ⟨0, 0⟩ 100 rfl).1 stW 3⟩

/-! ## C3 -/

theorem mult_mult (v : Vec2) (a s : ℝ) : mult (mult v a) s = mult v (a * s) := by
  apply Vec2.ext <;> simp [mult] <;> ring

theorem integrate_nograv_vel (cfg : SimulationConfig) (gs : GlobalSettings) (dt : ℝ)
    (b : Ball) (hg : cfg.gravity = 0) :
    (integrate cfg gs dt none b).vel =
      mult b.vel ((1 - (gs.viscosity + cfg.friction)) ^ dt) := by
  simp only [integrate, gravityVec, hg]
  apply Vec2.ext <;> simp [mult]

theorem runPhysicsStep_single (cfg : SimulationConfig) (gs : GlobalSettings) (dt : ℝ)
    (b : Ball) :
    (runPhysicsStep cfg gs dt [] none [b]).1 = [integrate cfg gs dt none b] := rfl

/-- C3: with `viscosity + friction = c` constant (`0 ≤ c < 1`), zero gravity,
no pointer and no container edges, the velocity after `k` sub-steps of size
`T/k` is exactly `v0 * (1-c)^T` — the net drag decay over total time `T` is
invariant under the sub-step count (exact in the real-number model; the spec's
floating-point tolerance is not needed). -/
theorem drag_decay_substep_invariant (cfg : SimulationConfig) (gs : GlobalSettings)
    (T : ℝ) (k : ℕ) (c : ℝ) (b : Ball)
    (hk : k ≠ 0) (hc : gs.viscosity + cfg.friction = c) (h0 : 0 ≤ c) (h1 : c < 1)
    (hg : cfg.gravity = 0) :
    ((fun bs => (runPhysicsStep cfg gs (T / (k : ℝ)) [] none bs).1)^[k] [b]).map Ball.vel =
      [mult b.vel ((1 - c) ^ T)] := by
  have hvel : ∀ bl : Ball,
      (integrate cfg gs (T / (k : ℝ)) none bl).vel =
        mult bl.vel ((1 - c) ^ (T / (k : ℝ))) := by
    intro bl
    rw [integrate_nograv_vel cfg gs (T / (k : ℝ)) bl hg, hc]
  have hiter : ∀ m : ℕ, ∃ bm : Ball,
      ((fun bs => (runPhysicsStep cfg gs (T / (k : ℝ)) [] none bs).1)^[m] [b]) = [bm]
      ∧ bm.vel = mult b.vel (((1 - c) ^ (T / (k : ℝ))) ^ m) := by
    intro m
    induction m with
    | zero =>
      refine ⟨b, rfl, ?_⟩
      apply Vec2.ext <;> simp [mult]
    | succ m ih =>
      obtain ⟨bm, hbm, hbmvel⟩ := ih
      refine ⟨integrate cfg gs (T / (k : ℝ)) none bm, ?_, ?_⟩
      · rw [Function.iterate_succ_apply', hbm, runPhysicsStep_single]
      · rw [hvel bm, hbmvel, mult_mult, pow_succ]
  obtain ⟨bk, hbk, hbkvel⟩ := hiter k
  have hbase : (0 : ℝ) ≤ 1 - c := by linarith
  have hq : ((1 - c) ^ (T / (k : ℝ))) ^ k = (1 - c) ^ T := by
    rw [← Real.rpow_natCast ((1 - c) ^ (T / (k : ℝ))) k, ← Real.rpow_mul hbase,
      div_mul_cancel₀]
    exact Nat.cast_ne_zero.mpr hk
  rw [hbk, List.map_cons, List.map_nil, hbkvel, hq]

/-- Configuration and settings with `gravity = 0` and
`viscosity + friction = 1/2`, used by the drag and initializer witnesses. -/
def cfgDrag : SimulationConfig := ⟨1, "", ShapeType.square, 4, 0, 1 / 4, 1, 0, 1, 5, 1, ""⟩

def gsDrag : GlobalSettings := ⟨1, 1, 90, 1 / 4, 1, 1, false, true, 4, false, false⟩

/-- Witness for C3: two sub-steps of size `3/2` decay the velocity by exactly
`(1/2)^3`. -/
theorem drag_decay_substep_invariant_witness :
    (2 : ℕ) ≠ 0 ∧ gsDrag.viscosity + cfgDrag.friction = 1 / 2 ∧ cfgDrag.gravity = 0
    ∧ ((fun bs => (runPhysicsStep cfgDrag gsDrag ((3 : ℝ) / ((2 : ℕ) : ℝ)) [] none bs).1)^[2]
          [ballA]).map Ball.vel =
        [mult ballA.vel ((1 - 1 / 2) ^ (3 : ℝ))] :=
  ⟨by norm_num, by norm_num [gsDrag, cfgDrag], rfl,
    drag_decay_substep_invariant cfgDrag gsDrag 3 2 (1 / 2) ballA (by norm_num)
      (by norm_num [gsDrag, cfgDrag]) (by norm_num) (by norm_num) rfl⟩

/-! ## C10 -/

theorem mag_polar (θ d : ℝ) : mag ⟨Real.cos θ * d, Real.sin θ * d⟩ = |d| := by
  unfold mag
  rw [show (Real.cos θ * d) ^ 2 + (Real.sin θ * d) ^ 2 = d ^ 2 from by
    linear_combination d ^ 2 * Real.sin_sq_add_cos_sq θ]
  exact Real.sqrt_sq_eq_abs d

/-- C10: every (re)initialization resets the rotation angle to 0 and replaces
the particle list wholesale with exactly `ballCount` fresh particles, each
with empty trail, zero acceleration, radius `ballSize`, position within 20
units of the container center, and speed in `[0.8, 1.2) * initialSpeed`. -/
theorem reinitialize_resets (cfg : SimulationConfig) (rands : ℕ → Rand4) (st : FrameState)
    (hs : 0 < cfg.initialSpeed)
    (hr : ∀ i, 0 ≤ (rands i).r2 ∧ (rands i).r2 < 1 ∧ 0 ≤ (rands i).r3 ∧ (rands i).r3 < 1) :
    (resetSimulation cfg rands st).rotation = 0
    ∧ (resetSimulation cfg rands st).balls = initBalls cfg rands
    ∧ (initBalls cfg rands).length = cfg.ballCount
    ∧ ∀ b ∈ initBalls cfg rands,
        b.trail = [] ∧ b.acc = ⟨0, 0⟩ ∧ b.radius = cfg.ballSize
        ∧ mag b.pos < 20
        ∧ 0.8 * cfg.initialSpeed ≤ mag b.vel ∧ mag b.vel < 1.2 * cfg.initialSpeed := by
  refine ⟨rfl, rfl, by simp [initBalls], fun b hb => ?_⟩
  simp only [initBalls, List.mem_map, List.mem_range] at hb
  obtain ⟨i, _, hbi⟩ := hb
  obtain ⟨hr2a, hr2b, hr3a, hr3b⟩ := hr i
  subst hbi
  refine ⟨rfl, rfl, rfl, ?_, ?_, ?_⟩
  · rw [mag_polar, abs_of_nonneg (by linarith)]
    linarith
  · rw [mag_polar, abs_of_nonneg (by nlinarith)]
    nlinarith
  · rw [mag_polar, abs_of_nonneg (by nlinarith)]
    nlinarith

/-- All-zero random draws, used by the initializer witness. -/
def rands0 : ℕ → Rand4 := fun _ => ⟨0, 0, 0, 0⟩

/-- Witness for C10 at a concrete configuration (one particle, unit initial
speed) and the all-zero random sequence. -/
theorem reinitialize_resets_witness :
    0 < cfgDrag.initialSpeed
    ∧ ((resetSimulation cfgDrag rands0 stW).rotation = 0
      ∧ (resetSimulation cfgDrag rands0 stW).balls = initBalls cfgDrag rands0
      ∧ (initBalls cfgDrag rands0).length = cfgDrag.ballCount
      ∧ ∀ b ∈ initBalls cfgDrag rands0,
          b.trail = [] ∧ b.acc = ⟨0, 0⟩ ∧ b.radius = cfgDrag.ballSize
          ∧ mag b.pos < 20
          ∧ 0.8 * cfgDrag.initialSpeed ≤ mag b.vel
          ∧ mag b.vel < 1.2 * cfgDrag.initialSpeed) :=
  ⟨by norm_num [cfgDrag],
    reinitialize_resets cfgDrag rands0 stW (by norm_num [cfgDrag])
      (fun i => by norm_num [rands0])⟩

/-! ## C7 -/

theorem foldl_inv {α β : Type} (f : β → α → β) (P : β → Prop) (l : List α)
    (h : ∀ b a, P b → P (f b a)) : ∀ b, P b → P (l.foldl f b) := by
  induction l with
  | nil => exact fun b hb => hb
  | cons a t ih => exact fun b hb => ih (f b a) (h b a hb)

theorem set_getD_self {α : Type} (l : List α) (i : ℕ) (d : α) :
    l.set i (l.getD i d) = l := by
  induction l generalizing i with
  | nil => rfl
  | cons a t ih =>
    cases i with
    | zero => rfl
    | succ n =>
      show a :: t.set n (t.getD n d) = a :: t
      rw [ih n]

theorem getD_map {α β : Type} (f : α → β) (l : List α) (i : ℕ) (d : α) :
    (l.map f).getD i (f d) = f (l.getD i d) := by
  induction l generalizing i with
  | nil => rfl
  | cons a t ih =>
    cases i with
    | zero => rfl
    | succ n => exact ih n

theorem integrate_trail (cfg : SimulationConfig) (gs : GlobalSettings) (dt : ℝ)
    (mouse : Option Vec2) (b : Ball) : (integrate cfg gs dt mouse b).trail = b.trail := rfl

theorem boundaryEdge_trail (e : ℝ) (p1 p2 : Vec2) (bc : Ball × ℕ) :
    (boundaryEdge e p1 p2 bc).1.trail = bc.1.trail := by
  simp only [boundaryEdge]
  split_ifs <;> rfl

theorem boundaryPass_trail (e : ℝ) (verts : List Vec2) (b : Ball) :
    (boundaryPass e verts b).1.trail = b.trail := by
  unfold boundaryPass
  refine foldl_inv _ (fun bc => bc.1.trail = b.trail) _ ?_ (b, 0) rfl
  intro bc i hbc
  show (boundaryEdge _ _ _ bc).1.trail = b.trail
  rw [boundaryEdge_trail]
  exact hbc

theorem resolvePair_trails (e : ℝ) (a b : Ball) :
    (resolvePair e a b).1.trail = a.trail ∧ (resolvePair e a b).2.1.trail = b.trail := by
  simp only [resolvePair]
  split_ifs <;> exact ⟨rfl, rfl⟩

theorem pairPass_trails (e : ℝ) (balls : List Ball) :
    (pairPass e balls).1.map Ball.trail = balls.map Ball.trail := by
  unfold pairPass
  refine foldl_inv _ (fun acc => acc.1.map Ball.trail = balls.map Ball.trail) _ ?_ (balls, 0) rfl
  intro acc i hacc
  refine foldl_inv _ (fun acc2 => acc2.1.map Ball.trail = balls.map Ball.trail) _ ?_ acc hacc
  intro acc2 j hacc2
  show (((acc2.1.set i _).set j _).map Ball.trail) = balls.map Ball.trail
  rw [List.map_set, List.map_set,
    (resolvePair_trails e (acc2.1.getD i defaultBall) (acc2.1.getD j defaultBall)).1,
    (resolvePair_trails e (acc2.1.getD i defaultBall) (acc2.1.getD j defaultBall)).2,
    ← getD_map Ball.trail acc2.1 i defaultBall, ← getD_map Ball.trail acc2.1 j defaultBall,
    set_getD_self, set_getD_self, hacc2]

theorem runPhysicsStep_trails (cfg : SimulationConfig) (gs : GlobalSettings) (dt : ℝ)
    (verts : List Vec2) (mouse : Option Vec2) (balls : List Ball) :
    ((runPhysicsStep cfg gs dt verts mouse balls).1).map Ball.trail =
      balls.map Ball.trail := by
  simp only [runPhysicsStep]
  rw [pairPass_trails, List.map_map, List.map_map]
  have hfun : ((Ball.trail ∘ Prod.fst) ∘ fun b =>
      boundaryPass (cfg.restitution * gs.bouncinessMultiplier) verts
        (integrate cfg gs dt mouse b)) = Ball.trail := by
    funext b
    show (boundaryPass _ verts (integrate cfg gs dt mouse b)).1.trail = b.trail
    rw [boundaryPass_trail, integrate_trail]
  rw [hfun]

theorem substep_trails (cfg : SimulationConfig) (gs : GlobalSettings) (r dt : ℝ)
    (s : FrameState) :
    (substep cfg gs r dt s).balls.map Ball.trail = s.balls.map Ball.trail := by
  simp only [substep]
  exact runPhysicsStep_trails cfg gs dt _ s.mousePos s.balls

theorem physicsPhase_trails (cfg : SimulationConfig) (gs : GlobalSettings) (r : ℝ)
    (st : FrameState) :
    (physicsPhase cfg gs r st).balls.map Ball.trail = st.balls.map Ball.trail := by
  unfold physicsPhase
  split_ifs with h
  · refine foldl_inv _ (fun s => s.balls.map Ball.trail = st.balls.map Ball.trail) _ ?_ st rfl
    intro s x hs
    show (substep _ _ _ _ s).balls.map Ball.trail = _
    rw [substep_trails]
    exact hs
  · rfl

theorem updateTrail_length_le (s : Bool) (ts : ℝ) (p : Vec2) (t : List Vec2)
    (h : t.length ≤ TRAIL_LENGTH) : (updateTrail s ts p t).length ≤ TRAIL_LENGTH := by
  simp only [updateTrail, TRAIL_LENGTH] at *
  split_ifs with h1 h2 h3
  · simp only [List.length_tail, List.length_append, List.length_singleton]
    omega
  · simp only [List.length_append, List.length_singleton] at h2 ⊢
    omega
  · simp
  · exact h

/-- C7: the trail buffer of every particle never exceeds `TRAIL_LENGTH = 12`
entries and is oldest-first: when trails are enabled and time advances, one
entry is appended per displayed frame with the oldest entry evicted at
capacity (FIFO); physics sub-steps never touch the trails (so the append is
per frame, not per sub-step); when trails are disabled the buffer is cleared
immediately; and a whole frame (`tick`) preserves the capacity bound for
every particle. -/
theorem trail_bounded_fifo :
    (∀ (s : Bool) (ts : ℝ) (p : Vec2) (t : List Vec2),
      t.length ≤ TRAIL_LENGTH → (updateTrail s ts p t).length ≤ TRAIL_LENGTH)
    ∧ (∀ (ts : ℝ) (p : Vec2) (t : List Vec2), 0 < ts → t.length = TRAIL_LENGTH →
        updateTrail true ts p t = t.tail ++ [p])
    ∧ (∀ (ts : ℝ) (p : Vec2) (t : List Vec2), 0 < ts → t.length < TRAIL_LENGTH →
        updateTrail true ts p t = t ++ [p])
    ∧ (∀ (ts : ℝ) (p : Vec2) (t : List Vec2), updateTrail false ts p t = [])
    ∧ (∀ (cfg : SimulationConfig) (gs : GlobalSettings) (dt : ℝ) (verts : List Vec2)
        (mouse : Option Vec2) (balls : List Ball),
        ((runPhysicsStep cfg gs dt verts mouse balls).1).map Ball.trail =
          balls.map Ball.trail)
    ∧ (∀ (cfg : SimulationConfig) (gs : GlobalSettings) (center : Vec2) (r : ℝ)
        (st : FrameState), (∀ b ∈ st.balls, b.trail.length ≤ TRAIL_LENGTH) →
        ∀ b ∈ (tick cfg gs center r st).balls, b.trail.length ≤ TRAIL_LENGTH) := by
  refine ⟨updateTrail_length_le, ?_, ?_, ?_, runPhysicsStep_trails, ?_⟩
  · intro ts p t hts hlen
    simp only [updateTrail]
    rw [if_pos ⟨trivial, hts⟩,
      if_pos (by simp only [List.length_append, List.length_singleton, hlen, TRAIL_LENGTH]; omega)]
    cases t with
    | nil => simp [TRAIL_LENGTH] at hlen
    | cons a t2 => rfl
  · intro ts p t hts hlen
    simp only [updateTrail]
    rw [if_pos ⟨trivial, hts⟩,
      if_neg (by simp only [List.length_append, List.length_singleton, TRAIL_LENGTH] at *; omega)]
  · intro ts p t
    simp only [updateTrail]
    rw [if_neg (by simp), if_pos trivial]
  · intro cfg gs center r st h b hb
    rw [tick, observeStats_balls] at hb
    simp only [trailPhase, List.mem_map] at hb
    obtain ⟨b0, hb0, hb0eq⟩ := hb
    have hb0trail : b0.trail ∈ st.balls.map Ball.trail := by
      rw [← physicsPhase_trails cfg gs r st]
      exact List.mem_map_of_mem Ball.trail hb0
    obtain ⟨b1, hb1, hb1eq⟩ := List.mem_map.mp hb0trail
    subst hb0eq
    exact updateTrail_length_le _ _ _ _ (hb1eq ▸ h b1 hb1)

/-- Witness for C7: one frame on the concrete state `stW` (single particle
with empty trail) keeps every trail within capacity. -/
theorem trail_bounded_fifo_witness :
    (∀ b ∈ stW.balls, b.trail.length ≤ TRAIL_LENGTH)
    ∧ ∀ b ∈ (tick cfg0 gsFrozen ⟨0, 0⟩ 100 stW).balls, b.trail.length ≤ TRAIL_LENGTH := by
  have hpre : ∀ b ∈ stW.balls, b.trail.length ≤ TRAIL_LENGTH := by
    intro b hb
    simp only [stW, List.mem_singleton] at hb
    subst hb
    simp [ballA, TRAIL_LENGTH]
  exact ⟨hpre, trail_bounded_fifo.2.2.2.2.2 cfg0 gsFrozen ⟨0, 0⟩ 100 stW hpre⟩

end

end KineticLab
